import Mathlib

/-!
Verification of the hackathon scoring system (`src/app.py`).

The embedding models:
* the CSV score ledger (`init_scores_file`, `save_scores`, `get_all_scores`)
  as lists of rows of strings, with the file's existence modelled by
  `Option`;
* the normalization engine (`normalize_scores`) as a function from a
  ledger snapshot and the active criterion ids to a ranked list of
  per-team aggregates.

Modelling conventions:
* Python floats are modelled by exact arithmetic: `ℚ` wherever the code
  handles sums / means of parsed values, `ℝ` with `Real.sqrt` for the
  z-score step.  `round(x, 2)` (and pandas `.round(2)`) is modelled as
  `⌊x * 100 + 1/2⌋ / 100`, which agrees with Python off exact half-way
  ties (banker's rounding differs only at ties, which no claim exercises).
* `pd.to_numeric(..., errors='coerce').fillna(0)` is modelled by a
  numeric parser `parseNum` (signed decimal with optional fraction,
  exponent and surrounding whitespace) returning `Option ℚ`; a missing
  cell or an unparseable string contributes `0`.  The column selection
  `df[criteria_ids]`, which in pandas ≥ 1.0 raises `KeyError` when an
  active criterion id is not a column of the snapshot, is modelled
  separately by `rawTotals` via `Except`.
* `datetime.now()` is passed in as an explicit `now : String` argument.
* `csv.DictReader` is modelled by zipping the header row with each data
  row, padding missing cells with `none`.
-/

namespace Scoring

/-- A CSV row, as written by `csv.writer`. -/
abbrev Row := List String

/-- The contents of `scores.csv`: the header row (when present) followed by
one row per saved score record. -/
abbrev Store := List Row

/-- The header written by `init_scores_file` / `save_scores`:
`['timestamp', 'judge', 'team_id', 'team_name'] + [c['id'] for c in criteria]`. -/
def headerRow (cids : List String) : Row :=
  ["timestamp", "judge", "team_id", "team_name"] ++ cids

/-- Model of `init_scores_file`: create the file with just the header row if
it does not exist (`none`), otherwise leave it untouched. -/
def init_scores_file (store : Option Store) (cids : List String) : Option Store :=
  match store with
  | none => some [headerRow cids]
  | some s => some s

/-- Model of `scores.get(c['id'], 0)`: dictionary lookup with default `0`. -/
def lookupScore (scores : List (String × Int)) (cid : String) : Int :=
  match scores.find? (fun p => p.1 == cid) with
  | some p => p.2
  | none => 0

/-- The row written for a submission:
`[timestamp, judge, team_id, team_name] + [scores.get(c['id'], 0) for c in criteria]`
(integer scores are serialized by `csv.writer` via `str`). -/
def newRow (now judge team_id team_name : String)
    (scores : List (String × Int)) (cids : List String) : Row :=
  [now, judge, team_id, team_name] ++ cids.map (fun cid => toString (lookupScore scores cid))

/-- Model of the match test in `save_scores`:
`len(row) >= 3 and row[1] == judge and row[2] == team_id`. -/
def rowMatches (judge team_id : String) (row : Row) : Bool :=
  decide (3 ≤ row.length) && (row.getD 1 "" == judge) && (row.getD 2 "" == team_id)

/-- The scan-and-replace loop of `save_scores` over the data rows: replace the
first row satisfying `p` with `nr`; if none matches, append `nr` at the end. -/
def upsertRows (rows : List Row) (p : Row → Bool) (nr : Row) : List Row :=
  match rows with
  | [] => [nr]
  | r :: rs => if p r then nr :: rs else r :: upsertRows rs p nr

/-- Model of `save_scores`: read the existing rows (an absent file reads as
`[]`), insert the header if the file was empty, then scan `rows[1:]` for a row
with the same `(judge, team_id)` key, replacing it in place, else append. -/
def save_scores (store : Option Store) (now judge team_id team_name : String)
    (scores : List (String × Int)) (cids : List String) : Store :=
  match store.getD [] with
  | [] => [headerRow cids, newRow now judge team_id team_name scores cids]
  | h :: t => h :: upsertRows t (rowMatches judge team_id)
      (newRow now judge team_id team_name scores cids)

/-- A record as produced by `csv.DictReader`: an association of column name to
the cell's string, `none` when the data row was shorter than the header. -/
abbrev Record := List (String × Option String)

/-- Zip a header with a data row the way `csv.DictReader` does: missing
trailing cells read as `None`. -/
def dictZip : List String → List String → Record
  | [], _ => []
  | h :: hs, [] => (h, none) :: dictZip hs []
  | h :: hs, c :: cs => (h, some c) :: dictZip hs cs

/-- Model of `get_all_scores`: `[]` when the file does not exist; otherwise
`csv.DictReader` over the file (an empty file has no header, hence no rows). -/
def get_all_scores (store : Option Store) : List Record :=
  match store with
  | none => []
  | some [] => []
  | some (h :: rows) => rows.map (fun r => dictZip h r)

/-- Look a column up in a record. -/
def getCell (r : Record) (k : String) : Option String :=
  match r.find? (fun p => p.1 == k) with
  | some p => p.2
  | none => none

/-- Look a column up in a record, reading an absent cell as `""` (used only
for the identity columns, which every ledger-produced record carries). -/
def getField (r : Record) (k : String) : String :=
  (getCell r k).getD ""

/-- Characters stripped around a numeral (the pandas numeric parser, like
Python float parsing, ignores surrounding whitespace). -/
def isSpaceChar (c : Char) : Bool :=
  c == ' ' || c == '\t' || c == '\n' || c == '\r'

/-- Strip surrounding whitespace. -/
def stripSpaces (cs : List Char) : List Char :=
  ((cs.dropWhile isSpaceChar).reverse.dropWhile isSpaceChar).reverse

/-- Numeric value of a digit string (`0` for the empty string; that every
character is a digit is checked separately). -/
def digitsVal (cs : List Char) : ℕ :=
  cs.foldl (fun acc c => acc * 10 + (c.toNat - 48)) 0

/-- Parse a decimal mantissa: `digits`, `digits.`, `digits.digits` or
`.digits`, with at least one digit overall. -/
def parseMantissa (cs : List Char) : Option ℚ :=
  match cs.splitOn '.' with
  | [w] =>
    if !w.isEmpty && w.all Char.isDigit then some ((digitsVal w : ℚ)) else none
  | [w, f] =>
    if (!w.isEmpty || !f.isEmpty) && w.all Char.isDigit && f.all Char.isDigit then
      some ((digitsVal w : ℚ) + (digitsVal f : ℚ) / (10 : ℚ) ^ f.length)
    else none
  | _ => none

/-- Parse an exponent part: an optionally signed nonempty digit string,
returning the sign and magnitude. -/
def parseExpPart (cs : List Char) : Option (Bool × ℕ) :=
  match cs with
  | '+' :: rest =>
    if !rest.isEmpty && rest.all Char.isDigit then some (false, digitsVal rest) else none
  | '-' :: rest =>
    if !rest.isEmpty && rest.all Char.isDigit then some (true, digitsVal rest) else none
  | rest =>
    if !rest.isEmpty && rest.all Char.isDigit then some (false, digitsVal rest) else none

/-- Parse an unsigned numeral with optional scientific exponent:
`80`, `3.5`, `12.`, `.5`, `1e2`, `1.5E-3`. -/
def parseSci (cs : List Char) : Option ℚ :=
  match (cs.map (fun c => if c == 'E' then 'e' else c)).splitOn 'e' with
  | [m] => parseMantissa m
  | [m, ex] =>
    match parseMantissa m, parseExpPart ex with
    | some q, some (neg, n) =>
      some (if neg then q / (10 : ℚ) ^ n else q * (10 : ℚ) ^ n)
    | _, _ => none
  | _ => none

/-- Model of `pd.to_numeric(·, errors='coerce')` on strings: an optionally
signed decimal numeral with optional fraction and scientific exponent,
surrounded by optional whitespace — the grammar the pandas numeric parser
accepts (so `"+5"`, `" 7 "` and `"1e2"` parse to their values); anything else
is `none` (pandas `NaN`).  Non-finite spellings (`inf`, `nan`) and digit
separators are not modelled. -/
def parseNum (s : String) : Option ℚ :=
  match stripSpaces s.toList with
  | '+' :: rest => parseSci rest
  | '-' :: rest => (parseSci rest).map (fun q => -q)
  | cs => parseSci cs

/-- Model of `.fillna(0)` after coercion: an absent cell or a malformed value
contributes `0`. -/
def coerceCell (c : Option String) : ℚ :=
  match c with
  | none => 0
  | some s => (parseNum s).getD 0

/-- The row-wise sum `df['total_raw'] = df[criteria_ids].sum(axis=1)` for one
record on the non-raising path, i.e. when every active criterion id is among
the snapshot's columns (`rawTotals` models the column selection itself, which
raises otherwise): the sum over the active criterion ids of the coerced cell
value, an absent or malformed cell contributing `0`. -/
def totalRaw (cids : List String) (r : Record) : ℚ :=
  (cids.map (fun cid => coerceCell (getCell r cid))).sum

/-- Arithmetic mean, as `pd.Series.mean` on a nonempty series. -/
def mean (l : List ℚ) : ℚ := l.sum / l.length

/-- Sample variance (`ddof = 1`), the square of `pd.Series.std`; only ever
used on series of length `> 1`, as in the code. -/
def sampleVar (l : List ℚ) : ℚ :=
  (l.map (fun x => (x - mean l) ^ 2)).sum / ((l.length : ℚ) - 1)

open Classical in
/-- Model of the per-judge z-score assignment: with more than one record,
`z = (total_raw - mean) / std` when `std > 0` and `0` otherwise; a single
record gets `z = 0`. -/
noncomputable def zScore (totals : List ℚ) (t : ℚ) : ℝ :=
  if 1 < totals.length then
    if 0 < Real.sqrt (sampleVar totals) then
      ((t : ℝ) - ((mean totals : ℚ) : ℝ)) / Real.sqrt (sampleVar totals)
    else 0
  else 0

/-- Model of Python `round(x, 2)` / pandas `.round(2)` on a real value
(round half up; see the file header for the tie caveat). -/
noncomputable def round2R (x : ℝ) : ℚ := (⌊x * 100 + 1 / 2⌋ : ℚ) / 100

/-- Model of Python `round(x, 2)` on an exact rational. -/
def round2Q (x : ℚ) : ℚ := (⌊x * 100 + 1 / 2⌋ : ℚ) / 100

/-- Model of pandas `.clip(lo, hi)`. -/
noncomputable def clipR (x lo hi : ℝ) : ℝ := max lo (min x hi)

/-- Model of `((z + 3) / 6 * 100).clip(0, 100).round(2)`.  The result of the
rounding is an exact multiple of `1/100`, so it is returned as a rational. -/
noncomputable def normalizedOf (z : ℝ) : ℚ :=
  round2R (clipR ((z + 3) / 6 * 100) 0 100)

/-- One row of `result_df`: the identity columns together with the computed
`total_raw`, `z_score` and `normalized_score` columns. -/
structure NormRec where
  judge : String
  team_id : String
  team_name : String
  total_raw : ℚ
  z : ℝ
  normalized : ℚ

/-- Process one judge's partition `judge_df`: every record keeps its identity
fields and receives the z-score of its total within the partition and the
corresponding normalized score. -/
noncomputable def processJudge (cids : List String) (grp : List Record) : List NormRec :=
  grp.map (fun r =>
    { judge := getField r "judge"
      team_id := getField r "team_id"
      team_name := getField r "team_name"
      total_raw := totalRaw cids r
      z := zScore (grp.map (totalRaw cids)) (totalRaw cids r)
      normalized := normalizedOf (zScore (grp.map (totalRaw cids)) (totalRaw cids r)) })

/-- Helper for `uniqueFirst`, carrying the set of values already seen. -/
def uniqueAux : List String → List String → List String
  | [], _ => []
  | x :: xs, seen =>
    if x ∈ seen then uniqueAux xs seen else x :: uniqueAux xs (x :: seen)

/-- Model of pandas `.unique()`: the distinct values in order of first
appearance. -/
def uniqueFirst (l : List String) : List String := uniqueAux l []

/-- The columns of `pd.DataFrame(all_scores)`: the union of the records' keys
in order of first appearance (for ledger-produced snapshots, the CSV header's
fields). -/
def dfColumns (records : List Record) : List String :=
  uniqueFirst (records.flatMap (fun r => r.map (fun p => p.1)))

/-- Model of the column selection `df[criteria_ids]` followed by
`.sum(axis=1)`: in pandas ≥ 1.0 selecting a list that contains a label which
is not a column of the frame raises `KeyError` (the guard on the coercion
loop checks `cid in df.columns`, but this selection is unguarded), modelled by
`Except.error`; otherwise the per-record row sums are produced. -/
def rawTotals (cids : List String) (records : List Record) : Except String (List ℚ) :=
  if cids.all (fun cid => (dfColumns records).contains cid) then
    Except.ok (records.map (totalRaw cids))
  else Except.error "KeyError"

/-- Model of the per-judge loop followed by `pd.concat`: records regrouped by
judge in order of each judge's first appearance, each carrying its z-score and
normalized score. -/
noncomputable def normRecs (cids : List String) (records : List Record) : List NormRec :=
  (uniqueFirst (records.map (fun r => getField r "judge"))).flatMap
    (fun j => processJudge cids (records.filter (fun r => getField r "judge" == j)))

/-- One element of `team_results`. -/
structure TeamResult where
  team_id : String
  team_name : String
  avg_raw_score : ℚ
  avg_normalized_score : ℚ
  num_judges : ℕ
  judge_scores : List (String × ℚ × ℚ)

/-- The aggregate built for one team from `result_df`: averages of the raw
totals and normalized scores over the records for that team, the judge count,
and the per-judge audit breakdown. -/
noncomputable def teamAgg (nrs : List NormRec) (t : String) : TeamResult :=
  let td := nrs.filter (fun nr => nr.team_id == t)
  { team_id := t
    team_name := (td.head?.map (fun nr => nr.team_name)).getD ""
    avg_raw_score := round2Q (mean (td.map (fun nr => nr.total_raw)))
    avg_normalized_score := round2Q (mean (td.map (fun nr => nr.normalized)))
    num_judges := td.length
    judge_scores := td.map (fun nr => (nr.judge, nr.total_raw, nr.normalized)) }

/-- The `team_results` list before the final sort: one aggregate per distinct
`team_id`, in order of first appearance in `result_df`. -/
noncomputable def teamResultsOf (cids : List String) (records : List Record) : List TeamResult :=
  let nrs := normRecs cids records
  (uniqueFirst (nrs.map (fun nr => nr.team_id))).map (teamAgg nrs)

/-- The comparison realizing `sort(key=lambda x: x['avg_normalized_score'],
reverse=True)`: `a` may precede `b` iff `a`'s key is at least `b`'s. -/
def trLE (a b : TeamResult) : Bool :=
  decide (b.avg_normalized_score ≤ a.avg_normalized_score)

/-- Model of `normalize_scores`: empty snapshot short-circuits to `[]`;
otherwise aggregate and stably sort by `avg_normalized_score` descending
(Python's `list.sort` is a stable sort, modelled by `List.mergeSort`). -/
noncomputable def normalize_scores (store : Option Store) (cids : List String) :
    List TeamResult :=
  let all := get_all_scores store
  if all = [] then []
  else (teamResultsOf cids all).mergeSort trLE

/-- The aggregates in pre-sort (grouping) order, with the same empty-snapshot
guard as `normalize_scores`. -/
noncomputable def preResults (store : Option Store) (cids : List String) : List TeamResult :=
  let all := get_all_scores store
  if all = [] then []
  else teamResultsOf cids all

/-- One `save_scores` call with all its arguments. -/
structure UpsertCall where
  now : String
  judge : String
  team_id : String
  team_name : String
  scores : List (String × Int)

/-- Run a sequence of `save_scores` calls starting from a nonexistent file. -/
def applyCalls (cids : List String) (calls : List UpsertCall) : Option Store :=
  calls.foldl
    (fun st c => some (save_scores st c.now c.judge c.team_id c.team_name c.scores cids))
    none

end Scoring

namespace Scoring

/-! ### Ledger lemmas -/

theorem rowMatches_newRow (now judge team_id team_name : String)
    (scores : List (String × Int)) (cids : List String) :
    rowMatches judge team_id (newRow now judge team_id team_name scores cids) = true := by
  simp [rowMatches, newRow]

theorem rowMatches_key_unique {j t j' t' : String} {row : Row}
    (h : rowMatches j t row = true) (h' : rowMatches j' t' row = true) :
    j' = j ∧ t' = t := by
  simp only [rowMatches, Bool.and_eq_true, decide_eq_true_eq, beq_iff_eq] at h h'
  exact ⟨h'.1.2.symm.trans h.1.2, h'.2.symm.trans h.2⟩

theorem countP_upsertRows_self (p : Row → Bool) (nr : Row) (hnr : p nr = true) :
    ∀ rows : List Row, rows.countP p ≤ 1 → (upsertRows rows p nr).countP p ≤ 1
  | [], _ => by simp [upsertRows, List.countP_cons, hnr]
  | r :: rs, h => by
    rw [upsertRows]
    by_cases hr : p r = true
    · rw [if_pos hr]
      rw [List.countP_cons, hr, if_pos rfl] at h
      rw [List.countP_cons, hnr, if_pos rfl]
      omega
    · rw [if_neg hr]
      have hr0 : p r = false := by simpa using hr
      rw [List.countP_cons, hr0] at h
      rw [List.countP_cons, hr0]
      simp only [Bool.false_eq_true, if_false] at h ⊢
      simpa using countP_upsertRows_self p nr hnr rs (by omega)

theorem countP_upsertRows_other (p p' : Row → Bool) (nr : Row) (hnr : p' nr = false) :
    ∀ rows : List Row, (upsertRows rows p nr).countP p' ≤ rows.countP p'
  | [] => by simp [upsertRows, List.countP_cons, hnr]
  | r :: rs => by
    rw [upsertRows]
    by_cases hr : p r = true
    · rw [if_pos hr]
      rw [List.countP_cons, List.countP_cons, hnr]
      simp only [Bool.false_eq_true, if_false]
      exact Nat.le_add_right _ _
    · rw [if_neg hr]
      rw [List.countP_cons, List.countP_cons]
      have := countP_upsertRows_other p p' nr hnr rs
      omega

theorem save_scores_tail_countP (store : Option Store)
    (now judge team_id team_name : String) (scores : List (String × Int)) (cids : List String)
    (hinv : ∀ j' t', ((store.getD []).drop 1).countP (rowMatches j' t') ≤ 1) :
    ∀ j' t',
      ((save_scores store now judge team_id team_name scores cids).drop 1).countP
        (rowMatches j' t') ≤ 1 := by
  intro j' t'
  rw [save_scores]
  rcases hrows : store.getD [] with _ | ⟨h, tl⟩
  · cases hm : rowMatches j' t' (newRow now judge team_id team_name scores cids) <;>
      simp [List.countP_cons, hm]
  · have hinv' := hinv j' t'
    rw [hrows] at hinv'
    simp only [List.drop_succ_cons, List.drop_zero] at hinv' ⊢
    set nr := newRow now judge team_id team_name scores cids with hnr
    by_cases hm : rowMatches j' t' nr = true
    · obtain ⟨hj, ht⟩ := rowMatches_key_unique (rowMatches_newRow now judge team_id team_name scores cids) hm
      subst hj; subst ht
      exact countP_upsertRows_self _ nr (rowMatches_newRow _ _ _ _ _ _) tl hinv'
    · exact le_trans
        (countP_upsertRows_other _ _ nr (Bool.not_eq_true _ ▸ hm) tl) hinv'

theorem applyCalls_tail_countP (cids : List String) (calls : List UpsertCall) :
    ∀ j' t',
      (((applyCalls cids calls).getD []).drop 1).countP (rowMatches j' t') ≤ 1 := by
  suffices h : ∀ (st : Option Store),
      (∀ j' t', ((st.getD []).drop 1).countP (rowMatches j' t') ≤ 1) →
      ∀ j' t',
        (((calls.foldl
            (fun st c => some (save_scores st c.now c.judge c.team_id c.team_name c.scores cids))
            st).getD []).drop 1).countP (rowMatches j' t') ≤ 1 by
    exact h none (by simp)
  induction calls with
  | nil => intro st hst; exact hst
  | cons c cs ih =>
    intro st hst
    exact ih (some (save_scores st c.now c.judge c.team_id c.team_name c.scores cids))
      (save_scores_tail_countP st c.now c.judge c.team_id c.team_name c.scores cids hst)

theorem upsertRows_replace (p : Row → Bool) (nr row : Row) (l2 : List Row) :
    ∀ l1 : List Row, (∀ r ∈ l1, p r = false) → p row = true →
      upsertRows (l1 ++ row :: l2) p nr = l1 ++ nr :: l2
  | [], _, hrow => by simp [upsertRows, hrow]
  | r :: rs, hl, hrow => by
    have hr : p r = false := hl r (List.mem_cons_self r rs)
    rw [List.cons_append, upsertRows, if_neg (by simp [hr]),
      upsertRows_replace p nr row l2 rs (fun x hx => hl x (List.mem_cons_of_mem r hx)) hrow,
      List.cons_append]

theorem upsertRows_append (p : Row → Bool) (nr : Row) :
    ∀ l : List Row, (∀ r ∈ l, p r = false) → upsertRows l p nr = l ++ [nr]
  | [], _ => rfl
  | r :: rs, hl => by
    have hr : p r = false := hl r (List.mem_cons_self r rs)
    rw [upsertRows, if_neg (by simp [hr]),
      upsertRows_append p nr rs (fun x hx => hl x (List.mem_cons_of_mem r hx)),
      List.cons_append]

end Scoring
namespace Scoring

/-- C1: every sequence of Upsert calls leaves at most one ledger record per
`(judge, entry)` key; an Upsert matching an existing record replaces it in
place at the same ordinal position with all fields (timestamp included)
replaced, an Upsert matching nothing appends at the end, and an Upsert on an
empty store writes the header followed by the new record. -/
theorem C1_upsert_key_invariant :
    (∀ (cids : List String) (calls : List UpsertCall) (j t : String),
      (((applyCalls cids calls).getD []).drop 1).countP (rowMatches j t) ≤ 1) ∧
    (∀ (store : Option Store) (now j t nm : String) (sc : List (String × Int))
        (cids : List String) (pre rest : List Row) (row : Row),
      store.getD [] = pre ++ row :: rest → pre ≠ [] →
      rowMatches j t row = true →
      (∀ r ∈ pre.drop 1, rowMatches j t r = false) →
      save_scores store now j t nm sc cids = pre ++ newRow now j t nm sc cids :: rest) ∧
    (∀ (store : Option Store) (now j t nm : String) (sc : List (String × Int))
        (cids : List String),
      store.getD [] ≠ [] →
      (∀ r ∈ (store.getD []).drop 1, rowMatches j t r = false) →
      save_scores store now j t nm sc cids = store.getD [] ++ [newRow now j t nm sc cids]) ∧
    (∀ (store : Option Store) (now j t nm : String) (sc : List (String × Int))
        (cids : List String),
      store.getD [] = [] →
      save_scores store now j t nm sc cids = [headerRow cids, newRow now j t nm sc cids]) := by
  refine ⟨applyCalls_tail_countP, ?_, ?_, ?_⟩
  · intro store now j t nm sc cids pre rest row hstore hpre hrow hfirst
    rcases pre with _ | ⟨h, ptl⟩
    · exact absurd rfl hpre
    · rw [List.cons_append] at hstore
      have hs : save_scores store now j t nm sc cids =
          h :: upsertRows (ptl ++ row :: rest) (rowMatches j t)
            (newRow now j t nm sc cids) := by
        rw [save_scores, hstore]
      simp only [List.drop_succ_cons, List.drop_zero] at hfirst
      rw [hs, upsertRows_replace _ _ _ _ ptl hfirst hrow, List.cons_append]
  · intro store now j t nm sc cids hne hfirst
    rcases hstore : store.getD [] with _ | ⟨h, tl⟩
    · exact absurd hstore hne
    · rw [hstore] at hfirst
      simp only [List.drop_succ_cons, List.drop_zero] at hfirst
      have hs : save_scores store now j t nm sc cids =
          h :: upsertRows tl (rowMatches j t) (newRow now j t nm sc cids) := by
        rw [save_scores, hstore]
      rw [hs, upsertRows_append _ _ tl hfirst]
      simp
  · intro store now j t nm sc cids hempty
    rw [save_scores, hempty]

end Scoring

namespace Scoring

/-- Witness for C1 at concrete inputs: two same-key upserts leave one matching
record; an upsert replaces a matching row in place; an upsert with no match
appends; an upsert on a missing file writes header plus record. -/
theorem C1_witness :
    ((((applyCalls ["c1"]
        [⟨"t1", "A", "T", "N", [("c1", 5)]⟩, ⟨"t2", "A", "T", "N", [("c1", 7)]⟩]).getD
          []).drop 1).countP (rowMatches "A" "T") ≤ 1) ∧
    (save_scores (some [headerRow ["c1"], ["t0", "A", "T", "N", "5"]])
        "t1" "A" "T" "N" [("c1", 9)] ["c1"] =
      [headerRow ["c1"]] ++ newRow "t1" "A" "T" "N" [("c1", 9)] ["c1"] :: []) ∧
    (save_scores (some [headerRow ["c1"], ["t0", "B", "T", "N", "5"]])
        "t1" "A" "T" "N" [("c1", 9)] ["c1"] =
      (some [headerRow ["c1"], ["t0", "B", "T", "N", "5"]] : Option Store).getD [] ++
        [newRow "t1" "A" "T" "N" [("c1", 9)] ["c1"]]) ∧
    (save_scores none "t1" "A" "T" "N" [("c1", 9)] ["c1"] =
      [headerRow ["c1"], newRow "t1" "A" "T" "N" [("c1", 9)] ["c1"]]) := by
  refine ⟨C1_upsert_key_invariant.1 _ _ _ _, ?_, ?_, ?_⟩
  · exact C1_upsert_key_invariant.2.1 _ "t1" "A" "T" "N" [("c1", 9)] ["c1"]
      [headerRow ["c1"]] [] ["t0", "A", "T", "N", "5"] rfl (by simp) (by decide) (by simp)
  · exact C1_upsert_key_invariant.2.2.1 _ "t1" "A" "T" "N" [("c1", 9)] ["c1"]
      (by simp) (by decide)
  · exact C1_upsert_key_invariant.2.2.2 _ "t1" "A" "T" "N" [("c1", 9)] ["c1"] rfl

/-- C7: starting from an empty ledger, upserting judge `A`, entry `T` with
scores `{c1: 5, c2: 3}` and reading everything back yields exactly one record,
carrying judge `A`, entry `T`, score `5` for `c1` and `3` for `c2`. -/
theorem C7_round_trip :
    ∃ rec : Record,
      get_all_scores (some (save_scores none "ts" "A" "T" "Team T"
        [("c1", 5), ("c2", 3)] ["c1", "c2"])) = [rec] ∧
      getField rec "judge" = "A" ∧
      getField rec "team_id" = "T" ∧
      (getCell rec "c1").bind parseNum = some 5 ∧
      (getCell rec "c2").bind parseNum = some 3 := by
  exact ⟨[("timestamp", some "ts"), ("judge", some "A"), ("team_id", some "T"),
    ("team_name", some "Team T"), ("c1", some "5"), ("c2", some "3")], by decide, by decide,
    by decide, by decide, by decide⟩

/-- C8: `normalize_scores` is a pure function of the ledger snapshot and the
criteria list, so two invocations with no intervening submission return
identical output. -/
theorem C8_deterministic (store : Option Store) (cids : List String) :
    normalize_scores store cids = normalize_scores store cids := rfl

/-- C9: when no store exists, `init_scores_file` creates one holding exactly
the header row (fixed leading columns followed by the criterion ids); when a
store exists it is returned completely unchanged, whatever its header. -/
theorem C9_init_behavior :
    (∀ cids : List String,
      init_scores_file none cids =
        some [["timestamp", "judge", "team_id", "team_name"] ++ cids]) ∧
    (∀ (s : Store) (cids : List String), init_scores_file (some s) cids = some s) :=
  ⟨fun _ => rfl, fun _ _ => rfl⟩

/-- C10: reading a nonexistent store yields `[]` rather than an error, and
`normalize_scores` on any store whose snapshot is empty yields the empty
ranking rather than an error. -/
theorem C10_empty_graceful :
    get_all_scores none = [] ∧
    ∀ (store : Option Store) (cids : List String),
      get_all_scores store = [] → normalize_scores store cids = [] := by
  refine ⟨rfl, ?_⟩
  intro store cids h
  rw [normalize_scores]
  simp [h]

/-- Witness for C10: the snapshot of a nonexistent store is empty and its
ranking is empty. -/
theorem C10_witness :
    get_all_scores none = [] ∧ normalize_scores none ["c1"] = [] :=
  ⟨C10_empty_graceful.1, C10_empty_graceful.2 none ["c1"] rfl⟩

end Scoring
namespace Scoring

/-! ### Engine lemmas -/

theorem coerceCell_eq_bind (c : Option String) :
    coerceCell c = ((c.bind parseNum).getD 0) := by
  cases c <;> rfl

theorem sum_map_getD_eq_sum_filterMap (f : String → Option ℚ) :
    ∀ l : List String, (l.map (fun x => (f x).getD 0)).sum = (l.filterMap f).sum
  | [] => rfl
  | x :: xs => by
    cases h : f x <;>
      simp [h, List.filterMap_cons, sum_map_getD_eq_sum_filterMap f xs]

/-- Record read back from a store created when `c1` was the only criterion. -/
def recOnlyC1 : Record :=
  [("timestamp", some "ts"), ("judge", some "A"), ("team_id", some "T"),
    ("team_name", some "N"), ("c1", some "5")]

/-- C2 fails on the code: with active criteria `[c1, c2]` against a snapshot
whose columns stop at `c1`, the raw-total step raises `KeyError` instead of
letting the absent criterion contribute `0`.  On the non-raising path (every
active criterion id a snapshot column) the raw totals are produced, each the
sum of the record's coerced cells — equal to the sum over just the
present-and-numeric cells — with an absent cell and a malformed value both
contributing `0`. -/
theorem C2_raw_total_keyerror :
    rawTotals ["c1", "c2"] [recOnlyC1] = Except.error "KeyError" ∧
    rawTotals ["c1"] [recOnlyC1] = Except.ok [5] ∧
    (∀ (cids : List String) (records : List Record),
      cids.all (fun cid => (dfColumns records).contains cid) = true →
      rawTotals cids records = Except.ok (records.map (totalRaw cids))) ∧
    (∀ (cids : List String) (r : Record),
      totalRaw cids r = (cids.filterMap (fun cid => (getCell r cid).bind parseNum)).sum) ∧
    coerceCell none = 0 ∧
    (∀ s : String, parseNum s = none → coerceCell (some s) = 0) := by
  refine ⟨?_, ?_, ?_, ?_, rfl, ?_⟩
  · rw [rawTotals, if_neg (by decide)]
  · have ht : totalRaw ["c1"] recOnlyC1 = 5 := by
      have h : parseNum "5" = some 5 := by decide
      simp +decide [totalRaw, recOnlyC1, getCell, coerceCell, h]
    rw [rawTotals, if_pos (by decide)]
    simp [ht]
  · intro cids records h
    rw [rawTotals, if_pos h]
  · intro cids r
    rw [totalRaw]
    rw [show (fun cid => coerceCell (getCell r cid)) =
        (fun cid => ((getCell r cid).bind parseNum).getD 0) from
      funext fun cid => coerceCell_eq_bind _]
    exact sum_map_getD_eq_sum_filterMap _ cids
  · intro s hs
    rw [coerceCell, hs]
    rfl

/-- Witness for C2 at concrete inputs: when every active criterion is a
snapshot column the totals are produced, and a malformed cell value coerces
to `0`. -/
theorem C2_witness :
    (["c1"].all (fun cid => (dfColumns [recOnlyC1]).contains cid) = true ∧
      rawTotals ["c1"] [recOnlyC1] =
        Except.ok ([recOnlyC1].map (totalRaw ["c1"]))) ∧
    (parseNum "abc" = none ∧ coerceCell (some "abc") = 0) :=
  ⟨⟨by decide, C2_raw_total_keyerror.2.2.1 ["c1"] [recOnlyC1] (by decide)⟩,
    by decide, C2_raw_total_keyerror.2.2.2.2.2 "abc" (by decide)⟩

/-- The raw totals of one judge's partition of the snapshot. -/
def judgeGroupTotals (cids : List String) (records : List Record) (j : String) : List ℚ :=
  (records.filter (fun r => getField r "judge" == j)).map (totalRaw cids)

theorem mem_normRecs {cids : List String} {records : List Record} {nr : NormRec}
    (h : nr ∈ normRecs cids records) :
    nr.z = zScore (judgeGroupTotals cids records nr.judge) nr.total_raw ∧
    nr.normalized = normalizedOf nr.z := by
  rw [normRecs] at h
  obtain ⟨j, hj, hmem⟩ := List.mem_flatMap.mp h
  rw [processJudge] at hmem
  obtain ⟨r, hr, rfl⟩ := List.mem_map.mp hmem
  obtain ⟨hrrec, hjudge⟩ := List.mem_filter.mp hr
  have hj' : getField r "judge" = j := by simpa using hjudge
  constructor
  · simp only [judgeGroupTotals, hj']
  · rfl

theorem zScore_spec (T : List ℚ) (t : ℚ) :
    (1 < T.length →
      (0 < Real.sqrt (sampleVar T) →
        zScore T t = ((t : ℝ) - ((mean T : ℚ) : ℝ)) / Real.sqrt (sampleVar T)) ∧
      (Real.sqrt (sampleVar T) = 0 → zScore T t = 0)) ∧
    (T.length = 1 → zScore T t = 0) := by
  constructor
  · intro hlen
    constructor
    · intro hs
      rw [zScore, if_pos hlen, if_pos hs]
    · intro hs
      rw [zScore, if_pos hlen, if_neg (by rw [hs]; exact lt_irrefl 0)]
  · intro hlen
    rw [zScore, if_neg (by omega)]

/-- C3: every record of the engine's intermediate table gets, within its
judge's partition of the snapshot, `z = (raw_total - mean) / std` when the
partition has more than one record and the sample standard deviation is
positive, `z = 0` when the standard deviation is zero, and `z = 0` when the
partition has exactly one record. -/
theorem C3_per_judge_z (cids : List String) (records : List Record) (nr : NormRec)
    (h : nr ∈ normRecs cids records) :
    (1 < (judgeGroupTotals cids records nr.judge).length →
      (0 < Real.sqrt (sampleVar (judgeGroupTotals cids records nr.judge)) →
        nr.z = ((nr.total_raw : ℝ) -
            ((mean (judgeGroupTotals cids records nr.judge) : ℚ) : ℝ)) /
          Real.sqrt (sampleVar (judgeGroupTotals cids records nr.judge))) ∧
      (Real.sqrt (sampleVar (judgeGroupTotals cids records nr.judge)) = 0 → nr.z = 0)) ∧
    ((judgeGroupTotals cids records nr.judge).length = 1 → nr.z = 0) := by
  have hz := (mem_normRecs h).1
  rw [hz]
  exact zScore_spec _ _

end Scoring
namespace Scoring

/-- The single-record snapshot used by the engine witnesses. -/
def recSingle : Record :=
  [("judge", some "J"), ("team_id", some "T"), ("team_name", some "T"), ("c1", some "5")]

/-- The engine's output row for `recSingle`. -/
noncomputable def nrSingle : NormRec :=
  { judge := "J", team_id := "T", team_name := "T"
    total_raw := totalRaw ["c1"] recSingle
    z := zScore [totalRaw ["c1"] recSingle] (totalRaw ["c1"] recSingle)
    normalized := normalizedOf (zScore [totalRaw ["c1"] recSingle] (totalRaw ["c1"] recSingle)) }

theorem normRecs_recSingle : normRecs ["c1"] [recSingle] = [nrSingle] := rfl

theorem nrSingle_mem : nrSingle ∈ normRecs ["c1"] [recSingle] := by
  rw [normRecs_recSingle]
  exact List.mem_singleton.mpr rfl

theorem nrSingle_z : nrSingle.z = 0 := rfl

/-- Witness for C3 at a concrete input: a judge with exactly one record gets
`z = 0`. -/
theorem C3_witness :
    nrSingle ∈ normRecs ["c1"] [recSingle] ∧
    (judgeGroupTotals ["c1"] [recSingle] nrSingle.judge).length = 1 ∧
    nrSingle.z = 0 :=
  ⟨nrSingle_mem, rfl,
    (C3_per_judge_z ["c1"] [recSingle] nrSingle nrSingle_mem).2 rfl⟩

theorem clipR_nonneg (v : ℝ) : 0 ≤ clipR v 0 100 := le_max_left _ _

theorem clipR_le (v : ℝ) : clipR v 0 100 ≤ 100 :=
  max_le (by norm_num) (min_le_right _ _)

theorem round2R_nonneg {x : ℝ} (h0 : 0 ≤ x) : 0 ≤ round2R x := by
  rw [round2R]
  apply div_nonneg _ (by norm_num)
  have h : (0 : ℤ) ≤ ⌊x * 100 + 1 / 2⌋ := Int.le_floor.mpr (by push_cast; nlinarith)
  exact_mod_cast h

end Scoring
namespace Scoring

theorem round2R_le_100 {x : ℝ} (h1 : x ≤ 100) : round2R x ≤ 100 := by
  rw [round2R, div_le_iff₀ (by norm_num : (0:ℚ) < 100)]
  have h : ⌊x * 100 + 1 / 2⌋ < 10001 := Int.floor_lt.mpr (by push_cast; nlinarith)
  have h2 : ⌊x * 100 + 1 / 2⌋ ≤ 10000 := by omega
  calc ((⌊x * 100 + 1 / 2⌋ : ℚ)) ≤ (10000 : ℚ) := by exact_mod_cast h2
    _ = 100 * 100 := by norm_num

theorem normalizedOf_zero : normalizedOf 0 = 50 := by
  rw [normalizedOf, clipR, round2R]
  norm_num

theorem normalizedOf_of_three_le {z : ℝ} (h : 3 ≤ z) : normalizedOf z = 100 := by
  rw [normalizedOf, clipR]
  rw [min_eq_right (by nlinarith), max_eq_right (by norm_num : (0:ℝ) ≤ 100), round2R]
  norm_num

/-- C4: every record's normalized score is `clip((z + 3) / 6 * 100, 0, 100)`
rounded to two decimals; it always lies in `[0, 100]`; a record with `z = 0`
gets exactly `50.00`; and any `z ≥ 3` (for instance `z = 10`) gets exactly
`100.00`. -/
theorem C4_normalized_bounds (cids : List String) (records : List Record) (nr : NormRec)
    (h : nr ∈ normRecs cids records) :
    nr.normalized = round2R (clipR ((nr.z + 3) / 6 * 100) 0 100) ∧
    0 ≤ nr.normalized ∧ nr.normalized ≤ 100 ∧
    (nr.z = 0 → nr.normalized = 50) ∧
    (3 ≤ nr.z → nr.normalized = 100) := by
  have hn := (mem_normRecs h).2
  rw [hn]
  refine ⟨rfl, round2R_nonneg (clipR_nonneg _), round2R_le_100 (clipR_le _), ?_, ?_⟩
  · intro hz
    rw [hz]
    exact normalizedOf_zero
  · intro hz
    exact normalizedOf_of_three_le hz

/-- Witness for C4: the single-record snapshot has `z = 0` and normalized
score exactly `50.00`, inside `[0, 100]`. -/
theorem C4_witness :
    nrSingle ∈ normRecs ["c1"] [recSingle] ∧
    (0 ≤ nrSingle.normalized ∧ nrSingle.normalized ≤ 100) ∧
    nrSingle.z = 0 ∧ nrSingle.normalized = 50 := by
  have h := C4_normalized_bounds ["c1"] [recSingle] nrSingle nrSingle_mem
  exact ⟨nrSingle_mem, ⟨h.2.1, h.2.2.1⟩, nrSingle_z, h.2.2.2.1 nrSingle_z⟩

end Scoring
namespace Scoring

/-- Snapshot record: judge `J` scores entry `Alpha` a raw total of `80`. -/
def recAlpha : Record :=
  [("judge", some "J"), ("team_id", some "Alpha"), ("team_name", some "Alpha"),
    ("c1", some "80")]

/-- Snapshot record: judge `J` scores entry `Beta` a raw total of `60`. -/
def recBeta : Record :=
  [("judge", some "J"), ("team_id", some "Beta"), ("team_name", some "Beta"),
    ("c1", some "60")]

/-- Identical-totals snapshot: judge `J` scores `Alpha` a raw total of `70`. -/
def recEqA : Record :=
  [("judge", some "J"), ("team_id", some "Alpha"), ("team_name", some "Alpha"),
    ("c1", some "70")]

/-- Identical-totals snapshot: judge `J` scores `Beta` a raw total of `70`. -/
def recEqB : Record :=
  [("judge", some "J"), ("team_id", some "Beta"), ("team_name", some "Beta"),
    ("c1", some "70")]

/-- C5: on the snapshot where one judge gives entry `Alpha` total `80` and
entry `Beta` total `60`, the engine computes mean `70`, sample standard
deviation within `0.01` of `14.14`, z-scores within `0.001` of `±0.707`, and
normalized scores exactly `61.79` and `38.21`; on the snapshot where the same
judge gives both entries total `70`, both records get `z = 0` and normalized
score exactly `50.00`. -/
theorem C5_worked_examples :
    (normRecs ["c1"] [recAlpha, recBeta]).map (fun nr => nr.total_raw) = [80, 60] ∧
    mean [(80 : ℚ), 60] = 70 ∧
    sampleVar [(80 : ℚ), 60] = 200 ∧
    |Real.sqrt (sampleVar [(80 : ℚ), 60]) - 14.14| < 1 / 100 ∧
    (normRecs ["c1"] [recAlpha, recBeta]).map (fun nr => nr.z) =
      [zScore [80, 60] 80, zScore [80, 60] 60] ∧
    |zScore [(80 : ℚ), 60] 80 - 0.707| < 1 / 1000 ∧
    |zScore [(80 : ℚ), 60] 60 + 0.707| < 1 / 1000 ∧
    (normRecs ["c1"] [recAlpha, recBeta]).map (fun nr => nr.normalized) =
      [6179 / 100, 3821 / 100] ∧
    (normRecs ["c1"] [recEqA, recEqB]).map (fun nr => (nr.z, nr.normalized)) =
      [(0, 50), (0, 50)] := by
  have htA : totalRaw ["c1"] recAlpha = 80 := by
    have h : parseNum "80" = some 80 := by decide
    simp +decide [totalRaw, recAlpha, getCell, coerceCell, h]
  have htB : totalRaw ["c1"] recBeta = 60 := by
    have h : parseNum "60" = some 60 := by decide
    simp +decide [totalRaw, recBeta, getCell, coerceCell, h]
  have htEA : totalRaw ["c1"] recEqA = 70 := by
    have h : parseNum "70" = some 70 := by decide
    simp +decide [totalRaw, recEqA, getCell, coerceCell, h]
  have htEB : totalRaw ["c1"] recEqB = 70 := by
    have h : parseNum "70" = some 70 := by decide
    simp +decide [totalRaw, recEqB, getCell, coerceCell, h]
  have hm : mean [(80 : ℚ), 60] = 70 := by norm_num [mean]
  have hv : sampleVar [(80 : ℚ), 60] = 200 := by norm_num [sampleVar, mean]
  have hv0 : sampleVar [(70 : ℚ), 70] = 0 := by norm_num [sampleVar, mean]
  have hs1 : (14.1421 : ℝ) < Real.sqrt 200 := (Real.lt_sqrt (by norm_num)).mpr (by norm_num)
  have hs2 : Real.sqrt 200 < 14.1422 := (Real.sqrt_lt' (by norm_num)).mpr (by norm_num)
  have hs0 : (0 : ℝ) < Real.sqrt 200 := by linarith
  have hzA : zScore [(80 : ℚ), 60] 80 = 10 / Real.sqrt 200 := by
    rw [zScore, if_pos (by norm_num), hv, hm, if_pos (Real.sqrt_pos.mpr (by norm_num))]
    norm_num
  have hzB : zScore [(80 : ℚ), 60] 60 = -(10 / Real.sqrt 200) := by
    rw [zScore, if_pos (by norm_num), hv, hm, if_pos (Real.sqrt_pos.mpr (by norm_num))]
    push_cast
    ring
  have hz0 : zScore [(70 : ℚ), 70] 70 = 0 := by
    rw [zScore, if_pos (by norm_num), hv0, if_neg (by simp)]
  have hzb1 : (0.70710 : ℝ) < 10 / Real.sqrt 200 := by
    rw [lt_div_iff₀ hs0]
    nlinarith
  have hzb2 : 10 / Real.sqrt 200 < 0.70711 := by
    rw [div_lt_iff₀ hs0]
    nlinarith
  have hnA : normalizedOf (10 / Real.sqrt 200) = 6179 / 100 := by
    rw [normalizedOf, clipR, round2R]
    rw [min_eq_left (by nlinarith), max_eq_right (by nlinarith)]
    have hf : ⌊(10 / Real.sqrt 200 + 3) / 6 * 100 * 100 + 1 / 2⌋ = (6179 : ℤ) := by
      rw [Int.floor_eq_iff]
      constructor
      · push_cast
        nlinarith
      · push_cast
        nlinarith
    rw [hf]
    norm_num
  have hnB : normalizedOf (-(10 / Real.sqrt 200)) = 3821 / 100 := by
    rw [normalizedOf, clipR, round2R]
    rw [min_eq_left (by nlinarith), max_eq_right (by nlinarith)]
    have hf : ⌊(-(10 / Real.sqrt 200) + 3) / 6 * 100 * 100 + 1 / 2⌋ = (3821 : ℤ) := by
      rw [Int.floor_eq_iff]
      constructor
      · push_cast
        nlinarith
      · push_cast
        nlinarith
    rw [hf]
    norm_num
  have hlist : normRecs ["c1"] [recAlpha, recBeta] =
      [{ judge := "J", team_id := "Alpha", team_name := "Alpha"
         total_raw := totalRaw ["c1"] recAlpha
         z := zScore [totalRaw ["c1"] recAlpha, totalRaw ["c1"] recBeta]
           (totalRaw ["c1"] recAlpha)
         normalized := normalizedOf (zScore [totalRaw ["c1"] recAlpha,
           totalRaw ["c1"] recBeta] (totalRaw ["c1"] recAlpha)) },
       { judge := "J", team_id := "Beta", team_name := "Beta"
         total_raw := totalRaw ["c1"] recBeta
         z := zScore [totalRaw ["c1"] recAlpha, totalRaw ["c1"] recBeta]
           (totalRaw ["c1"] recBeta)
         normalized := normalizedOf (zScore [totalRaw ["c1"] recAlpha,
           totalRaw ["c1"] recBeta] (totalRaw ["c1"] recBeta)) }] := rfl
  have hlist2 : normRecs ["c1"] [recEqA, recEqB] =
      [{ judge := "J", team_id := "Alpha", team_name := "Alpha"
         total_raw := totalRaw ["c1"] recEqA
         z := zScore [totalRaw ["c1"] recEqA, totalRaw ["c1"] recEqB]
           (totalRaw ["c1"] recEqA)
         normalized := normalizedOf (zScore [totalRaw ["c1"] recEqA,
           totalRaw ["c1"] recEqB] (totalRaw ["c1"] recEqA)) },
       { judge := "J", team_id := "Beta", team_name := "Beta"
         total_raw := totalRaw ["c1"] recEqB
         z := zScore [totalRaw ["c1"] recEqA, totalRaw ["c1"] recEqB]
           (totalRaw ["c1"] recEqB)
         normalized := normalizedOf (zScore [totalRaw ["c1"] recEqA,
           totalRaw ["c1"] recEqB] (totalRaw ["c1"] recEqB)) }] := rfl
  refine ⟨?_, hm, hv, ?_, ?_, ?_, ?_, ?_, ?_⟩
  · rw [hlist]
    simp [htA, htB]
  · rw [hv, abs_sub_lt_iff]
    constructor <;> nlinarith
  · rw [hlist]
    simp [htA, htB]
  · rw [hzA, abs_sub_lt_iff]
    constructor <;> nlinarith
  · rw [hzB, abs_lt]
    constructor <;> nlinarith
  · rw [hlist]
    simp only [List.map_cons, List.map_nil, htA, htB]
    rw [hzA, hzB, hnA, hnB]
  · rw [hlist2]
    simp only [List.map_cons, List.map_nil, htEA, htEB]
    rw [hz0, normalizedOf_zero]

end Scoring
namespace Scoring

theorem trLE_trans (a b c : TeamResult) (hab : trLE a b = true) (hbc : trLE b c = true) :
    trLE a c = true := by
  rw [trLE, decide_eq_true_eq] at hab hbc ⊢
  exact le_trans hbc hab

theorem trLE_total (a b : TeamResult) : (trLE a b || trLE b a) = true := by
  rw [trLE, trLE, Bool.or_eq_true, decide_eq_true_eq, decide_eq_true_eq]
  exact le_total _ _

theorem normalize_scores_eq_mergeSort (store : Option Store) (cids : List String) :
    normalize_scores store cids = (preResults store cids).mergeSort trLE := by
  rw [normalize_scores, preResults]
  by_cases h : get_all_scores store = []
  · simp [h]
  · simp [h]

/-- C6: the ranking returned by the engine is sorted by
`avg_normalized_score` in descending order, and the sort is stable: the
records holding any fixed value of the sort key appear in exactly the pre-sort
(grouping) order. -/
theorem C6_sorted_stable (store : Option Store) (cids : List String) :
    (normalize_scores store cids).Pairwise
      (fun a b => b.avg_normalized_score ≤ a.avg_normalized_score) ∧
    ∀ q : ℚ,
      (normalize_scores store cids).filter
          (fun tr => decide (tr.avg_normalized_score = q)) =
        (preResults store cids).filter
          (fun tr => decide (tr.avg_normalized_score = q)) := by
  rw [normalize_scores_eq_mergeSort]
  constructor
  · exact (List.sorted_mergeSort trLE_trans trLE_total (preResults store cids)).imp
      (fun h => by rwa [trLE, decide_eq_true_eq] at h)
  · intro q
    set l := preResults store cids with hl
    set p : TeamResult → Bool := fun tr => decide (tr.avg_normalized_score = q) with hp
    have hmemq : ∀ a ∈ l.filter p, a.avg_normalized_score = q := by
      intro a ha
      have := (List.mem_filter.mp ha).2
      rwa [hp, decide_eq_true_eq] at this
    have hpair : (l.filter p).Pairwise (fun a b => trLE a b = true) := by
      apply List.pairwise_of_forall_mem_list
      intro a ha b hb
      rw [trLE, decide_eq_true_eq, hmemq a ha, hmemq b hb]
    have hsub : List.Sublist (l.filter p) (l.mergeSort trLE) :=
      List.sublist_mergeSort trLE_trans trLE_total hpair (List.filter_sublist l)
    have hsub' : List.Sublist (l.filter p) ((l.mergeSort trLE).filter p) := by
      have h1 : (l.filter p).filter p = l.filter p :=
        List.filter_eq_self.mpr (fun a ha => (List.mem_filter.mp ha).2)
      rw [← h1]
      exact List.Sublist.filter p hsub
    have hlen : (l.filter p).length = ((l.mergeSort trLE).filter p).length :=
      (((List.mergeSort_perm l trLE).filter p).length_eq).symm
    exact (hsub'.eq_of_length hlen).symm

end Scoring
